import Mathlib

set_option maxRecDepth 10000

/-!
Shallow embedding of `worst_offenders_with_TDE_line.py`.

Text is modelled as `List Char`.  Python string/list operations used by the
script (`str.find`, slicing, `str.split`, `int`, `float`, `list.index`,
negative indexing) are embedded with their Python semantics; exceptions are
modelled by `Option` (a `none` result means the Python code raises).  Python
`float` parsing is given exact rational semantics (the script performs no
arithmetic on the parsed floats, it only stores, prints and plots them).
The external optical system is modelled by its observable data: the list of
TDE operands fed to `get_tde_operands` and the summary text fed to
`get_offenders`.
-/

/-- Python whitespace test used by `str.strip` / `str.split()`. -/
def isPySpace (c : Char) : Bool :=
  c == ' ' || c == '\t' || c == '\n' || c == '\r' || c == '\x0b' || c == '\x0c'

/-- Python `str.strip()` on character lists. -/
def pyStrip (s : List Char) : List Char :=
  ((s.dropWhile isPySpace).reverse.dropWhile isPySpace).reverse

/-- Value of a list of decimal digit characters. -/
def digitsToNat (l : List Char) : Nat :=
  l.foldl (fun acc c => acc * 10 + (c.toNat - 48)) 0

/-- Python `int(s)`: optional surrounding whitespace, optional sign, decimal
digits; `none` models a raised `ValueError`. -/
def pyInt (s : List Char) : Option ℤ :=
  match pyStrip s with
  | '+' :: r => if !r.isEmpty && r.all Char.isDigit then some (digitsToNat r) else none
  | '-' :: r => if !r.isEmpty && r.all Char.isDigit then some (-(digitsToNat r : ℤ)) else none
  | r => if !r.isEmpty && r.all Char.isDigit then some (digitsToNat r) else none

/-- Python `str.split(sep)` for a one-character separator, generalised to a
predicate on the separator character. -/
def pySplitOnP (p : Char → Bool) : List Char → List (List Char)
  | [] => [[]]
  | c :: t =>
    if p c then [] :: pySplitOnP p t
    else
      match pySplitOnP p t with
      | [] => [[c]]
      | w :: ws => (c :: w) :: ws

/-- Python `str.split(sep)` for a one-character separator. -/
def pySplitOn (sep : Char) (l : List Char) : List (List Char) :=
  pySplitOnP (· == sep) l

/-- Python `str.split()` (no argument): split on whitespace runs, dropping
empty fields. -/
def pySplitWs (s : List Char) : List (List Char) :=
  (pySplitOnP isPySpace s).filter (fun w => !w.isEmpty)

/-- Decimal mantissa of a Python `float` literal: `digits`, `digits.digits`,
`.digits` or `digits.`, read as an integer value together with its number of
decimal places (so the mantissa is `value / 10 ^ places`, exactly). -/
def decMantParts (m : List Char) : Option (Nat × Nat) :=
  match pySplitOn '.' m with
  | [a] => if !a.isEmpty && a.all Char.isDigit then some (digitsToNat a, 0) else none
  | [a, b] =>
      if !(a ++ b).isEmpty && a.all Char.isDigit && b.all Char.isDigit then
        some (digitsToNat a * 10 ^ b.length + digitsToNat b, b.length)
      else none
  | _ => none

/-- Exponent part of a Python `float` literal: optional sign and digits. -/
def expInt (e : List Char) : Option ℤ :=
  match e with
  | '+' :: r => if !r.isEmpty && r.all Char.isDigit then some (digitsToNat r) else none
  | '-' :: r => if !r.isEmpty && r.all Char.isDigit then some (-(digitsToNat r : ℤ)) else none
  | r => if !r.isEmpty && r.all Char.isDigit then some (digitsToNat r) else none

/-- Python `float(s)` on decimal and scientific literals, with exact rational
semantics (`sign * mantissa * 10 ^ exponent`, built with `mkRat`); `none`
models a raised `ValueError`. -/
def pyFloat (s : List Char) : Option ℚ :=
  let t := pyStrip s
  let su : ℤ × List Char :=
    match t with
    | '+' :: r => (1, r)
    | '-' :: r => (-1, r)
    | r => (1, r)
  match pySplitOnP (fun c => c == 'e' || c == 'E') su.2 with
  | [m] => do
      let nd ← decMantParts m
      some (mkRat (su.1 * nd.1) (10 ^ nd.2))
  | [m, e] => do
      let nd ← decMantParts m
      let k ← expInt e
      if 0 ≤ k then some (mkRat (su.1 * nd.1 * 10 ^ k.toNat) (10 ^ nd.2))
      else some (mkRat (su.1 * nd.1) (10 ^ nd.2 * 10 ^ (-k).toNat))
  | _ => none

/-- Index of the first occurrence of `pat` in `s`, if any. -/
def pyFindNat (pat : List Char) : List Char → Option Nat
  | [] => if pat.isPrefixOf ([] : List Char) then some 0 else none
  | c :: t => if pat.isPrefixOf (c :: t) then some 0 else (pyFindNat pat t).map (· + 1)

/-- Python `s.find(pat)`: index of the first occurrence, `-1` if absent. -/
def pyFind (s pat : List Char) : ℤ :=
  match pyFindNat pat s with
  | some i => (i : ℤ)
  | none => -1

/-- `pat` occurs in `s` at position `i`. -/
def occursAt (s pat : List Char) (i : Nat) : Prop :=
  pat.isPrefixOf (s.drop i) = true

instance (s pat : List Char) (i : Nat) : Decidable (occursAt s pat i) := by
  unfold occursAt; infer_instance

/-- `i` is the position of the first occurrence of `pat` in `s`. -/
def firstOccurAt (s pat : List Char) (i : Nat) : Prop :=
  occursAt s pat i ∧ ∀ j, j < i → ¬ occursAt s pat j

instance (s pat : List Char) (i : Nat) : Decidable (firstOccurAt s pat i) := by
  unfold firstOccurAt; infer_instance

/-- Resolution of a Python slice endpoint against a length: negative indices
count from the end, out-of-range indices are clamped. -/
def pyIdx (len : Nat) (a : ℤ) : Nat :=
  if a < 0 then (a + len).toNat else min a.toNat len

/-- Python `l[a:b]`. -/
def pySlice {α : Type} (l : List α) (a b : ℤ) : List α :=
  (l.take (pyIdx l.length b)).drop (pyIdx l.length a)

/-- Python `l[a:]`. -/
def pySliceFrom {α : Type} (l : List α) (a : ℤ) : List α :=
  l.drop (pyIdx l.length a)

/-- Python `l[i]` with negative-index support; `none` models `IndexError`. -/
def pyGet {α : Type} (l : List α) (i : ℤ) : Option α :=
  if i < 0 then
    if (-i).toNat ≤ l.length then l.get? (l.length - (-i).toNat) else none
  else l.get? i.toNat

/-- Python `l.index(x)`: position of the first element equal to `x`;
`none` models the raised `ValueError`. -/
def listIndex {α : Type} [DecidableEq α] (x : α) : List α → Option Nat
  | [] => none
  | y :: t => if y = x then some 0 else (listIndex x t).map (· + 1)

/-- A TDE-operand record / worst-offender record: the dict
`{"Type": _, "Int1": _, "Int2": _, "Int3": _}` built by both
`get_tde_operands` and `get_offenders` (exactly these four keys). -/
structure OperandData where
  «Type» : List Char
  Int1 : ℤ
  Int2 : ℤ
  Int3 : ℤ
  deriving DecidableEq

/-- An offense record: the dict `{"Change": _, "Criterion": _, "Value": _}`
built by `get_offenders`. -/
structure OffenseData where
  Change : ℚ
  Criterion : ℚ
  Value : ℚ
  deriving DecidableEq

/-- The observable data of one operand row of the Tolerance Data Editor, as
read through the vendor API (`TypeName`, `Param1..3` and the two cell
headers). -/
structure TdeOperand where
  TypeName : List Char
  Param1 : ℤ
  Param2 : ℤ
  Param3 : ℤ
  Param2CellHeader : List Char
  Param3CellHeader : List Char
  deriving DecidableEq

/-- `IGNORE_COLUMNS = ["Max#", "Min#"]`. -/
def IGNORE_COLUMNS : List (List Char) := ["Max#".data, "Min#".data]

/-- Body of the `get_tde_operands` loop for one operand. -/
def operandData (op : TdeOperand) : Option OperandData := do
  let ty ← (pySplitWs op.TypeName).get? 1
  some { «Type» := ty
         Int1 := op.Param1
         Int2 := if op.Param2CellHeader ∈ IGNORE_COLUMNS then 0 else op.Param2
         Int3 := if op.Param3CellHeader ∈ IGNORE_COLUMNS then 0 else op.Param3 }

/-- `get_tde_operands`: one record per TDE operand, in operand order.  The
optical system is represented by its operand rows (`GetOperandAt(i)` is the
`i-1`-th list element, `NumberOfOperands` the list length). -/
def get_tde_operands : List TdeOperand → Option (List OperandData)
  | [] => some []
  | op :: rest => do
      let d ← operandData op
      let l ← get_tde_operands rest
      some (d :: l)

/-- The tag preceding the nominal criterion in the summary (22 characters). -/
def NOMINAL_TAG : List Char := "Nominal Criterion   : ".data

/-- The tag opening the worst-offenders section of the summary. -/
def WORST_TAG : List Char := "Worst offenders:".data

/-- The tag ending the worst-offenders section of the summary. -/
def RSS_TAG : List Char :=
  "Estimated Performance Changes based upon Root-Sum-Square method".data

/-- The worst-offender lines selected from the summary:
`data_summary[find("Worst offenders:"):find("Estimated …")].split("\n")[2:-3]`. -/
def worstOffenderLines (data_summary : List Char) : List (List Char) :=
  pySlice
    (pySplitOn '\n'
      (pySlice data_summary (pyFind data_summary WORST_TAG) (pyFind data_summary RSS_TAG)))
    2 (-3)

/-- Body of the `get_offenders` loop for one worst-offender line. -/
def parseOffenderLine (offender : List Char) : Option (OperandData × OffenseData) := do
  let offender_parse := pySplitOn '\t' offender
  let ty := (offender_parse.headD []).dropLast
  let f1 ← offender_parse.get? 1
  let int1 ← pyInt f1
  let chS ← pyGet offender_parse (-1)
  let change ← pyFloat chS
  let crS ← pyGet offender_parse (-2)
  let criterion ← pyFloat crS
  let vaS ← pyGet offender_parse (-3)
  let value ← pyFloat vaS
  let int2 := ((offender_parse.get? 2).bind pyInt).getD 0
  let int3 :=
    if 6 < offender_parse.length then ((offender_parse.get? 3).bind pyInt).getD 0 else 0
  some (⟨ty, int1, int2, int3⟩, ⟨change, criterion, value⟩)

/-- The `get_offenders` loop: one parsed pair per worst-offender line, in line
order; a parse failure on any line aborts (the Python exception propagates). -/
def parseOffenders : List (List Char) → Option (List (OperandData × OffenseData))
  | [] => some []
  | line :: rest => do
      let p ← parseOffenderLine line
      let r ← parseOffenders rest
      some (p :: r)

/-- `get_offenders`: the offender records, offense records and nominal
criterion extracted from the summary text. -/
def get_offenders (data_summary : List Char) :
    Option (List OperandData × List OffenseData × ℚ) := do
  let nominal_criterion ← pyFloat
    ((pySplitOn '\n'
        (pySliceFrom data_summary (pyFind data_summary NOMINAL_TAG + 22))).headD [])
  let parsed ← parseOffenders (worstOffenderLines data_summary)
  some (parsed.map Prod.fst, parsed.map Prod.snd, nominal_criterion)

/-- One printed report row (and one plotted bar): the TDE line number, the
offender record it was resolved from, and the paired offense record. -/
structure ReportRow where
  TdeLine : Nat
  offender : OperandData
  offense : OffenseData
  deriving DecidableEq

/-- First loop of `tde_operands_by_offense`: attach
`TdeLine = tde_listing.index(offender) + 1` to each offender, in order;
`none` models the `ValueError` raised by `list.index` on an unmatched
offender. -/
def offendersWithTdeLine (tde_listing : List OperandData) :
    List OperandData → Option (List (OperandData × Nat))
  | [] => some []
  | o :: rest => do
      let i ← listIndex o tde_listing
      let r ← offendersWithTdeLine tde_listing rest
      some ((o, i + 1) :: r)

/-- Second loop of `tde_operands_by_offense`: the `k`-th row pairs the `k`-th
offender (with its TDE line) with `offenses_listing[k]`; `none` models the
`IndexError` when the offense list is too short. -/
def buildRows : List (OperandData × Nat) → List OffenseData → Option (List ReportRow)
  | [], _ => some []
  | _ :: _, [] => none
  | (o, n) :: rest, off :: offs => do
      let r ← buildRows rest offs
      some (⟨n, o, off⟩ :: r)

/-- `tde_operands_by_offense`: resolve every offender to its TDE line, then
produce the printed/plotted report rows in order. -/
def tde_operands_by_offense (tde_listing : List OperandData)
    (offenders_listing : List OperandData) (offenses_listing : List OffenseData) :
    Option (List ReportRow) := do
  let withLines ← offendersWithTdeLine tde_listing offenders_listing
  buildRows withLines offenses_listing

/-! ### Sample data used by the witness theorems -/

/-- A small Tolerance Data Viewer summary exercising the whole pipeline. -/
def sampleSummary : String :=
"Nominal Criterion   : 0.5\nWorst offenders:\nH\nTWAV:\t1\t\t0.25\t0.5\t0.25\nx\ny\nEstimated Performance Changes based upon Root-Sum-Square method"

/-- A small TDE operand table. -/
def sampleOps : List TdeOperand :=
  [⟨"1: TWAV".data, 1, 0, 0, "Int2".data, "Int3".data⟩,
   ⟨"2: TEZI".data, 3, 5, 7, "Max#".data, "Min#".data⟩]

/-- A small TDE listing whose second row matches the sample offender. -/
def sampleTde : List OperandData :=
  [⟨"TFRN".data, 5, 0, 0⟩, ⟨"TWAV".data, 1, 0, 0⟩]

/-! ### Correctness of the embedded Python primitives -/

theorem pyFindNat_of_firstOccur {pat s : List Char} {i : Nat}
    (h : firstOccurAt s pat i) : pyFindNat pat s = some i := by
  induction s generalizing i with
  | nil =>
    obtain ⟨h1, h2⟩ := h
    match i with
    | 0 => simpa [pyFindNat, occursAt] using h1
    | i + 1 =>
      exact absurd (by simpa [occursAt] using h1)
        (by simpa [occursAt] using h2 0 (Nat.succ_pos i))
  | cons c t ih =>
    obtain ⟨h1, h2⟩ := h
    match i with
    | 0 =>
      unfold pyFindNat
      rw [if_pos (by simpa [occursAt] using h1)]
    | i + 1 =>
      have hnot : ¬ pat.isPrefixOf (c :: t) = true := by
        simpa [occursAt] using h2 0 (Nat.succ_pos i)
      unfold pyFindNat
      rw [if_neg hnot]
      have ht : firstOccurAt t pat i := by
        refine ⟨by simpa [occursAt] using h1, fun j hj => ?_⟩
        have := h2 (j + 1) (by omega)
        simpa [occursAt] using this
      rw [ih ht]
      rfl

theorem pyFind_of_firstOccur {s pat : List Char} {i : Nat}
    (h : firstOccurAt s pat i) : pyFind s pat = (i : ℤ) := by
  unfold pyFind
  rw [pyFindNat_of_firstOccur h]

theorem occursAt_add_length_le {s pat : List Char} {i : Nat}
    (hp : pat ≠ []) (h : occursAt s pat i) : i + pat.length ≤ s.length := by
  unfold occursAt at h
  have hpre : pat <+: s.drop i := by
    exact (List.isPrefixOf_iff_prefix).1 h
  have hlen : pat.length ≤ (s.drop i).length := hpre.length_le
  rw [List.length_drop] at hlen
  by_cases hi : i < s.length
  · omega
  · exfalso
    have : s.drop i = [] := List.drop_eq_nil_of_le (by omega)
    rw [this] at hpre
    exact hp (List.prefix_nil.1 hpre)

theorem pySplitOnP_ne_nil (p : Char → Bool) (l : List Char) : pySplitOnP p l ≠ [] := by
  induction l with
  | nil => simp [pySplitOnP]
  | cons c t ih =>
    unfold pySplitOnP
    by_cases hc : p c
    · simp [hc]
    · simp only [hc]
      match hm : pySplitOnP p t with
      | [] => exact absurd hm ih
      | w :: ws => simp

theorem headD_pySplitOnP (p : Char → Bool) (l : List Char) :
    (pySplitOnP p l).headD [] = l.takeWhile (fun c => !p c) := by
  induction l with
  | nil => simp [pySplitOnP]
  | cons c t ih =>
    unfold pySplitOnP
    by_cases hc : p c
    · simp [hc, List.takeWhile]
    · simp only [hc, if_neg, Bool.false_eq_true, not_false_eq_true]
      match hm : pySplitOnP p t with
      | [] => exact absurd hm (pySplitOnP_ne_nil p t)
      | w :: ws =>
        rw [hm] at ih
        simp only [List.headD_cons] at ih
        simp [List.takeWhile, hc, ih]

theorem headD_pySplitOn (sep : Char) (l : List Char) :
    (pySplitOn sep l).headD [] = l.takeWhile (fun c => !(c == sep)) := by
  unfold pySplitOn
  exact headD_pySplitOnP _ l

theorem pySlice_natCast {α : Type} (l : List α) (i j : Nat) :
    pySlice l (i : ℤ) (j : ℤ) = (l.take j).drop i := by
  unfold pySlice pyIdx
  have hi : ¬ ((i : ℤ) < 0) := by omega
  have hj : ¬ ((j : ℤ) < 0) := by omega
  rw [if_neg hi, if_neg hj]
  simp only [Int.toNat_natCast]
  have htake : l.take (min j l.length) = l.take j := by
    rcases Nat.le_total j l.length with h | h
    · rw [Nat.min_eq_left h]
    · rw [Nat.min_eq_right h, List.take_length, List.take_of_length_le h]
  rw [htake]
  rcases Nat.le_total i l.length with h | h
  · rw [Nat.min_eq_left h]
  · rw [Nat.min_eq_right h]
    have h1 : (l.take j).length ≤ l.length := by
      rw [List.length_take]; omega
    rw [List.drop_eq_nil_of_le h1, List.drop_eq_nil_of_le (by omega)]

/-- Dropping the last `n` elements, as in the tail end of a Python `[a:-n]`
slice. -/
def dropLastN {α : Type} (n : Nat) (l : List α) : List α := l.take (l.length - n)

theorem pySlice_two_negThree {α : Type} (l : List α) :
    pySlice l 2 (-3) = dropLastN 3 (l.drop 2) := by
  unfold pySlice pyIdx dropLastN
  norm_num
  have h3 : ((-3 : ℤ) + l.length).toNat = l.length - 3 := by omega
  rw [h3]
  have h2 : ((2 : ℤ)).toNat = 2 := by rfl
  rw [h2]
  rcases Nat.le_total 2 l.length with h | h
  · rw [Nat.min_eq_left h, List.drop_take]
    have harith : l.length - 3 - 2 = l.length - 2 - 3 := by omega
    rw [harith]
  · rw [Nat.min_eq_right h]
    have hl3 : l.length - 3 = 0 := by omega
    have hr : l.length - 2 - 3 = 0 := by omega
    rw [hl3, hr]
    simp

/-! ### Pointwise descriptions of the embedded loops -/

theorem listIndex_spec {α : Type} [DecidableEq α] {x : α} {l : List α} {i : Nat}
    (h : listIndex x l = some i) :
    l.get? i = some x ∧ ∀ j, j < i → l.get? j ≠ some x := by
  induction l generalizing i with
  | nil => simp [listIndex] at h
  | cons y t ih =>
    by_cases hy : y = x
    · simp only [listIndex, if_pos hy, Option.some.injEq] at h
      subst h
      simp [hy]
    · simp only [listIndex, if_neg hy, Option.map_eq_some'] at h
      obtain ⟨i', hi', rfl⟩ := h
      obtain ⟨h1, h2⟩ := ih hi'
      refine ⟨by simpa using h1, fun j hj => ?_⟩
      match j with
      | 0 =>
        simp only [List.get?_cons_zero, ne_eq, Option.some.injEq]
        exact hy
      | j + 1 =>
        simp only [List.get?_cons_succ]
        exact h2 j (by omega)

theorem listIndex_eq_none_of_not_mem {α : Type} [DecidableEq α] {x : α} {l : List α}
    (h : x ∉ l) : listIndex x l = none := by
  induction l with
  | nil => rfl
  | cons y t ih =>
    simp only [List.mem_cons, not_or] at h
    have hy : ¬ y = x := fun he => h.1 he.symm
    simp [listIndex, hy, ih h.2]

theorem listIndex_isSome_of_mem {α : Type} [DecidableEq α] {x : α} {l : List α}
    (h : x ∈ l) : (listIndex x l).isSome := by
  induction l with
  | nil => simp at h
  | cons y t ih =>
    by_cases hy : y = x
    · simp [listIndex, hy]
    · simp only [List.mem_cons] at h
      rcases h with h | h
      · exact absurd h.symm hy
      · simp only [listIndex, if_neg hy, Option.isSome_map']
        exact ih h

theorem get_tde_operands_cons (op : TdeOperand) (rest : List TdeOperand) :
    get_tde_operands (op :: rest) =
      (operandData op).bind fun d =>
        (get_tde_operands rest).bind fun l => some (d :: l) := rfl

theorem parseOffenders_cons (line : List Char) (rest : List (List Char)) :
    parseOffenders (line :: rest) =
      (parseOffenderLine line).bind fun p =>
        (parseOffenders rest).bind fun r => some (p :: r) := rfl

theorem offendersWithTdeLine_cons (tde : List OperandData) (o : OperandData)
    (rest : List OperandData) :
    offendersWithTdeLine tde (o :: rest) =
      (listIndex o tde).bind fun i =>
        (offendersWithTdeLine tde rest).bind fun r => some ((o, i + 1) :: r) := rfl

theorem buildRows_cons (o : OperandData) (n : Nat) (rest : List (OperandData × Nat))
    (off : OffenseData) (offs : List OffenseData) :
    buildRows ((o, n) :: rest) (off :: offs) =
      (buildRows rest offs).bind fun r => some (⟨n, o, off⟩ :: r) := rfl

theorem get_tde_operands_spec {ops : List TdeOperand} {l : List OperandData}
    (h : get_tde_operands ops = some l) :
    l.length = ops.length ∧ ∀ k op, ops.get? k = some op → l.get? k = operandData op := by
  induction ops generalizing l with
  | nil =>
    simp only [get_tde_operands, Option.some.injEq] at h
    subst h
    simp
  | cons op rest ih =>
    rw [get_tde_operands_cons] at h
    simp only [Option.bind_eq_some, Option.some.injEq] at h
    obtain ⟨d, hd, r, hr, hl⟩ := h
    subst hl
    obtain ⟨hlen, hpt⟩ := ih hr
    refine ⟨by simp [hlen], fun k x hk => ?_⟩
    match k with
    | 0 =>
      simp only [List.get?_cons_zero, Option.some.injEq] at hk
      subst hk
      simpa using hd.symm
    | k + 1 =>
      simp only [List.get?_cons_succ] at hk ⊢
      exact hpt k x hk

theorem parseOffenders_spec {lines : List (List Char)}
    {ps : List (OperandData × OffenseData)}
    (h : parseOffenders lines = some ps) :
    ps.length = lines.length ∧
      ∀ k line, lines.get? k = some line → ps.get? k = parseOffenderLine line := by
  induction lines generalizing ps with
  | nil =>
    simp only [parseOffenders, Option.some.injEq] at h
    subst h
    simp
  | cons line rest ih =>
    rw [parseOffenders_cons] at h
    simp only [Option.bind_eq_some, Option.some.injEq] at h
    obtain ⟨p, hp, r, hr, hl⟩ := h
    subst hl
    obtain ⟨hlen, hpt⟩ := ih hr
    refine ⟨by simp [hlen], fun k x hk => ?_⟩
    match k with
    | 0 =>
      simp only [List.get?_cons_zero, Option.some.injEq] at hk
      subst hk
      simpa using hp.symm
    | k + 1 =>
      simp only [List.get?_cons_succ] at hk ⊢
      exact hpt k x hk

theorem offendersWithTdeLine_spec {tde ofs : List OperandData}
    {ws : List (OperandData × Nat)}
    (h : offendersWithTdeLine tde ofs = some ws) :
    ws.length = ofs.length ∧
      ∀ k o, ofs.get? k = some o →
        ∃ i, listIndex o tde = some i ∧ ws.get? k = some (o, i + 1) := by
  induction ofs generalizing ws with
  | nil =>
    simp only [offendersWithTdeLine, Option.some.injEq] at h
    subst h
    simp
  | cons o rest ih =>
    rw [offendersWithTdeLine_cons] at h
    simp only [Option.bind_eq_some, Option.some.injEq] at h
    obtain ⟨i, hi, r, hr, hl⟩ := h
    subst hl
    obtain ⟨hlen, hpt⟩ := ih hr
    refine ⟨by simp [hlen], fun k x hk => ?_⟩
    match k with
    | 0 =>
      simp only [List.get?_cons_zero, Option.some.injEq] at hk
      subst hk
      exact ⟨i, hi, by simp⟩
    | k + 1 =>
      simp only [List.get?_cons_succ] at hk ⊢
      exact hpt k x hk

theorem buildRows_spec {ws : List (OperandData × Nat)} {offs : List OffenseData}
    {rows : List ReportRow}
    (h : buildRows ws offs = some rows) :
    rows.length = ws.length ∧
      ∀ k w, ws.get? k = some w →
        ∃ off, offs.get? k = some off ∧ rows.get? k = some ⟨w.2, w.1, off⟩ := by
  induction ws generalizing offs rows with
  | nil =>
    simp only [buildRows, Option.some.injEq] at h
    subst h
    simp
  | cons w rest ih =>
    match offs with
    | [] => simp [buildRows] at h
    | off :: offs' =>
      obtain ⟨o, n⟩ := w
      rw [buildRows_cons] at h
      simp only [Option.bind_eq_some, Option.some.injEq] at h
      obtain ⟨r, hr, hl⟩ := h
      subst hl
      obtain ⟨hlen, hpt⟩ := ih hr
      refine ⟨by simp [hlen], fun k x hk => ?_⟩
      match k with
      | 0 =>
        simp only [List.get?_cons_zero, Option.some.injEq] at hk
        subst hk
        exact ⟨off, rfl, rfl⟩
      | k + 1 =>
        simp only [List.get?_cons_succ] at hk ⊢
        exact hpt k x hk

theorem operandData_eq (op : TdeOperand) :
    operandData op =
      ((pySplitWs op.TypeName).get? 1).bind fun ty =>
        some ⟨ty, op.Param1,
          if op.Param2CellHeader ∈ IGNORE_COLUMNS then 0 else op.Param2,
          if op.Param3CellHeader ∈ IGNORE_COLUMNS then 0 else op.Param3⟩ := rfl

theorem get_offenders_eq (s : List Char) :
    get_offenders s =
      (pyFloat ((pySplitOn '\n'
          (pySliceFrom s (pyFind s NOMINAL_TAG + 22))).headD [])).bind fun nc =>
        (parseOffenders (worstOffenderLines s)).bind fun parsed =>
          some (parsed.map Prod.fst, parsed.map Prod.snd, nc) := rfl

theorem tde_operands_by_offense_eq (tde ofs : List OperandData)
    (offs : List OffenseData) :
    tde_operands_by_offense tde ofs offs =
      (offendersWithTdeLine tde ofs).bind fun ws => buildRows ws offs := rfl

theorem offendersWithTdeLine_none {tde : List OperandData} {o : OperandData}
    (hno : o ∉ tde) :
    ∀ ofs : List OperandData, o ∈ ofs → offendersWithTdeLine tde ofs = none := by
  intro ofs
  induction ofs with
  | nil => intro ho; simp at ho
  | cons a rest ih =>
    intro ho
    rw [offendersWithTdeLine_cons]
    rcases List.mem_cons.1 ho with rfl | hmem
    · rw [listIndex_eq_none_of_not_mem hno]
      rfl
    · rw [ih hmem]
      cases listIndex a tde <;> rfl

/-! ### The claims -/

/-- C7: the script is deterministic: equal summary texts and equal TDE
operand data yield equal results of `get_offenders` and
`get_tde_operands`. -/
theorem C7_deterministic (s t : List Char) (ops1 ops2 : List TdeOperand)
    (hs : s = t) (hops : ops1 = ops2) :
    get_offenders s = get_offenders t ∧
      get_tde_operands ops1 = get_tde_operands ops2 := by
  subst hs
  subst hops
  exact ⟨rfl, rfl⟩

/-- C7 witness. -/
theorem C7_deterministic_witness :
    get_offenders [] = get_offenders [] ∧
      get_tde_operands [] = get_tde_operands [] :=
  C7_deterministic [] [] [] [] rfl rfl

/-- C9: an offender record that equals no record of the TDE listing makes
`tde_operands_by_offense` fail (the `ValueError` of `list.index`) already in
its line-resolution loop, which runs before any report row is produced: the
whole report is `none`, there is no partial report. -/
theorem C9_unmatched_offender_raises {tde ofs : List OperandData}
    (h : ∃ o ∈ ofs, o ∉ tde) :
    offendersWithTdeLine tde ofs = none ∧
      ∀ offs : List OffenseData, tde_operands_by_offense tde ofs offs = none := by
  obtain ⟨o, ho, hno⟩ := h
  have hnone := offendersWithTdeLine_none hno ofs ho
  refine ⟨hnone, fun offs => ?_⟩
  rw [tde_operands_by_offense_eq, hnone]
  rfl

/-- C9 witness. -/
theorem C9_unmatched_offender_raises_witness :
    offendersWithTdeLine [] [⟨"TWAV".data, 1, 0, 0⟩] = none ∧
      ∀ offs : List OffenseData,
        tde_operands_by_offense [] [⟨"TWAV".data, 1, 0, 0⟩] offs = none :=
  @C9_unmatched_offender_raises [] [⟨"TWAV".data, 1, 0, 0⟩] (by decide)

/-- C8: `get_tde_operands` records `Int2 = 0` whenever the operand's `Param2`
cell header is `Max#` or `Min#` and `Int2 = Param2` otherwise, and likewise
for `Int3` with the `Param3` cell header. -/
theorem C8_ignore_columns {ops : List TdeOperand} {l : List OperandData}
    {k : Nat} {op : TdeOperand} {d : OperandData}
    (h : get_tde_operands ops = some l) (hk : ops.get? k = some op)
    (hd : l.get? k = some d) :
    ((op.Param2CellHeader = "Max#".data ∨ op.Param2CellHeader = "Min#".data) →
        d.Int2 = 0) ∧
    (¬(op.Param2CellHeader = "Max#".data ∨ op.Param2CellHeader = "Min#".data) →
        d.Int2 = op.Param2) ∧
    ((op.Param3CellHeader = "Max#".data ∨ op.Param3CellHeader = "Min#".data) →
        d.Int3 = 0) ∧
    (¬(op.Param3CellHeader = "Max#".data ∨ op.Param3CellHeader = "Min#".data) →
        d.Int3 = op.Param3) := by
  obtain ⟨hlen, hpt⟩ := get_tde_operands_spec h
  have hl := hpt k op hk
  rw [hd] at hl
  have hl' : operandData op = some d := hl.symm
  rw [operandData_eq] at hl'
  simp only [Option.bind_eq_some, Option.some.injEq] at hl'
  obtain ⟨ty, hty, hrec⟩ := hl'
  subst hrec
  have hmem2 : (op.Param2CellHeader ∈ IGNORE_COLUMNS) ↔
      (op.Param2CellHeader = "Max#".data ∨ op.Param2CellHeader = "Min#".data) := by
    simp [IGNORE_COLUMNS]
  have hmem3 : (op.Param3CellHeader ∈ IGNORE_COLUMNS) ↔
      (op.Param3CellHeader = "Max#".data ∨ op.Param3CellHeader = "Min#".data) := by
    simp [IGNORE_COLUMNS]
  refine ⟨fun h2 => ?_, fun h2 => ?_, fun h3 => ?_, fun h3 => ?_⟩
  · simp [hmem2.2 h2]
  · have hm : op.Param2CellHeader ∉ IGNORE_COLUMNS := fun hm => h2 (hmem2.1 hm)
    simp [hm]
  · simp [hmem3.2 h3]
  · have hm : op.Param3CellHeader ∉ IGNORE_COLUMNS := fun hm => h3 (hmem3.1 hm)
    simp [hm]

/-- C8 witness. -/
theorem C8_ignore_columns_witness :
    ((TdeOperand.Param2CellHeader ⟨"2: TEZI".data, 3, 5, 7, "Max#".data, "Min#".data⟩ =
          "Max#".data ∨
        TdeOperand.Param2CellHeader ⟨"2: TEZI".data, 3, 5, 7, "Max#".data, "Min#".data⟩ =
          "Min#".data) →
      OperandData.Int2 ⟨"TEZI".data, 3, 0, 0⟩ = 0) ∧
    (¬(TdeOperand.Param2CellHeader ⟨"2: TEZI".data, 3, 5, 7, "Max#".data, "Min#".data⟩ =
          "Max#".data ∨
        TdeOperand.Param2CellHeader ⟨"2: TEZI".data, 3, 5, 7, "Max#".data, "Min#".data⟩ =
          "Min#".data) →
      OperandData.Int2 ⟨"TEZI".data, 3, 0, 0⟩ =
        TdeOperand.Param2 ⟨"2: TEZI".data, 3, 5, 7, "Max#".data, "Min#".data⟩) ∧
    ((TdeOperand.Param3CellHeader ⟨"2: TEZI".data, 3, 5, 7, "Max#".data, "Min#".data⟩ =
          "Max#".data ∨
        TdeOperand.Param3CellHeader ⟨"2: TEZI".data, 3, 5, 7, "Max#".data, "Min#".data⟩ =
          "Min#".data) →
      OperandData.Int3 ⟨"TEZI".data, 3, 0, 0⟩ = 0) ∧
    (¬(TdeOperand.Param3CellHeader ⟨"2: TEZI".data, 3, 5, 7, "Max#".data, "Min#".data⟩ =
          "Max#".data ∨
        TdeOperand.Param3CellHeader ⟨"2: TEZI".data, 3, 5, 7, "Max#".data, "Min#".data⟩ =
          "Min#".data) →
      OperandData.Int3 ⟨"TEZI".data, 3, 0, 0⟩ =
        TdeOperand.Param3 ⟨"2: TEZI".data, 3, 5, 7, "Max#".data, "Min#".data⟩) :=
  @C8_ignore_columns sampleOps
    [⟨"TWAV".data, 1, 0, 0⟩, ⟨"TEZI".data, 3, 0, 0⟩] 1
    ⟨"2: TEZI".data, 3, 5, 7, "Max#".data, "Min#".data⟩ ⟨"TEZI".data, 3, 0, 0⟩
    (by decide) (by decide) (by decide)

/-- C10: on success `get_tde_operands` returns one record per TDE operand, in
operand order (the record at 0-based position `i` describes the operand at
1-based index `i+1`), each record an `OperandData` (exactly the four fields
`Type`, `Int1`, `Int2`, `Int3`), with `Type` the second whitespace-separated
token of the operand's `TypeName`. -/
theorem C10_tde_listing_shape {ops : List TdeOperand} {l : List OperandData}
    (h : get_tde_operands ops = some l) :
    l.length = ops.length ∧
      ∀ k op, ops.get? k = some op →
        ∃ ty, (pySplitWs op.TypeName).get? 1 = some ty ∧
          l.get? k = some ⟨ty, op.Param1,
            if op.Param2CellHeader ∈ IGNORE_COLUMNS then 0 else op.Param2,
            if op.Param3CellHeader ∈ IGNORE_COLUMNS then 0 else op.Param3⟩ := by
  obtain ⟨hlen, hpt⟩ := get_tde_operands_spec h
  refine ⟨hlen, fun k op hk => ?_⟩
  have hl := hpt k op hk
  obtain ⟨hklt, -⟩ := List.get?_eq_some.1 hk
  cases hop : operandData op with
  | none =>
    rw [hop] at hl
    have := List.get?_eq_none.1 hl
    omega
  | some d =>
    rw [hop] at hl
    have hop' := hop
    rw [operandData_eq] at hop'
    simp only [Option.bind_eq_some, Option.some.injEq] at hop'
    obtain ⟨ty, hty, hrec⟩ := hop'
    exact ⟨ty, hty, by rw [hl, ← hrec]⟩

/-- C10 witness. -/
theorem C10_tde_listing_shape_witness :
    ([⟨"TWAV".data, 1, 0, 0⟩, ⟨"TEZI".data, 3, 0, 0⟩] : List OperandData).length =
        sampleOps.length ∧
      ∀ k op, sampleOps.get? k = some op →
        ∃ ty, (pySplitWs op.TypeName).get? 1 = some ty ∧
          ([⟨"TWAV".data, 1, 0, 0⟩, ⟨"TEZI".data, 3, 0, 0⟩] : List OperandData).get? k =
            some ⟨ty, op.Param1,
              if op.Param2CellHeader ∈ IGNORE_COLUMNS then 0 else op.Param2,
              if op.Param3CellHeader ∈ IGNORE_COLUMNS then 0 else op.Param3⟩ :=
  @C10_tde_listing_shape sampleOps
    [⟨"TWAV".data, 1, 0, 0⟩, ⟨"TEZI".data, 3, 0, 0⟩] (by decide)

theorem parseOffenderLine_eq (line : List Char) :
    parseOffenderLine line =
      ((pySplitOn '\t' line).get? 1).bind fun f1 =>
        (pyInt f1).bind fun int1 =>
          (pyGet (pySplitOn '\t' line) (-1)).bind fun chS =>
            (pyFloat chS).bind fun change =>
              (pyGet (pySplitOn '\t' line) (-2)).bind fun crS =>
                (pyFloat crS).bind fun criterion =>
                  (pyGet (pySplitOn '\t' line) (-3)).bind fun vaS =>
                    (pyFloat vaS).bind fun value =>
                      some (⟨((pySplitOn '\t' line).headD []).dropLast, int1,
                              (((pySplitOn '\t' line).get? 2).bind pyInt).getD 0,
                              if 6 < (pySplitOn '\t' line).length then
                                (((pySplitOn '\t' line).get? 3).bind pyInt).getD 0
                              else 0⟩,
                            ⟨change, criterion, value⟩) := rfl

/-- C3: the fields of a successfully parsed worst-offender line: `Type` is
the first tab-separated field with its last character removed, `Int1` the
integer parse of the second field, `Value`, `Criterion` and `Change` the
float parses of the third-from-last, second-from-last and last fields, and
`Int3` is parsed from the fourth field only when the line has more than 6
tab-separated fields, otherwise it is 0. -/
theorem C3_offender_field_extraction {line : List Char} {o : OperandData}
    {off : OffenseData}
    (h : parseOffenderLine line = some (o, off)) :
    o.«Type» = ((pySplitOn '\t' line).headD []).dropLast ∧
    (∃ f, (pySplitOn '\t' line).get? 1 = some f ∧ pyInt f = some o.Int1) ∧
    (∃ g, pyGet (pySplitOn '\t' line) (-3) = some g ∧ pyFloat g = some off.Value) ∧
    (∃ g, pyGet (pySplitOn '\t' line) (-2) = some g ∧ pyFloat g = some off.Criterion) ∧
    (∃ g, pyGet (pySplitOn '\t' line) (-1) = some g ∧ pyFloat g = some off.Change) ∧
    (6 < (pySplitOn '\t' line).length →
      o.Int3 = (((pySplitOn '\t' line).get? 3).bind pyInt).getD 0) ∧
    (¬ 6 < (pySplitOn '\t' line).length → o.Int3 = 0) := by
  rw [parseOffenderLine_eq] at h
  simp only [Option.bind_eq_some, Option.some.injEq, Prod.mk.injEq] at h
  obtain ⟨f1, hf1, n1, hn1, chS, hchS, ch, hch, crS, hcrS, cr, hcr, vaS, hvaS, va, hva,
    ho, hoff⟩ := h
  subst ho
  subst hoff
  refine ⟨rfl, ⟨f1, hf1, hn1⟩, ⟨vaS, hvaS, hva⟩, ⟨crS, hcrS, hcr⟩, ⟨chS, hchS, hch⟩,
    fun hlen => ?_, fun hlen => ?_⟩
  · simp [hlen]
  · simp [hlen]

/-- C3 witness. -/
theorem C3_offender_field_extraction_witness :
    OperandData.«Type» ⟨"TEZI".data, 3, 0, 7⟩ =
      ((pySplitOn '\t' "TEZI:\t3\t0\t7\t0.25\t0.5\t0.125".data).headD []).dropLast ∧
    (∃ f, (pySplitOn '\t' "TEZI:\t3\t0\t7\t0.25\t0.5\t0.125".data).get? 1 = some f ∧
      pyInt f = some (OperandData.Int1 ⟨"TEZI".data, 3, 0, 7⟩)) ∧
    (∃ g, pyGet (pySplitOn '\t' "TEZI:\t3\t0\t7\t0.25\t0.5\t0.125".data) (-3) = some g ∧
      pyFloat g = some (OffenseData.Value ⟨mkRat 1 8, mkRat 1 2, mkRat 1 4⟩)) ∧
    (∃ g, pyGet (pySplitOn '\t' "TEZI:\t3\t0\t7\t0.25\t0.5\t0.125".data) (-2) = some g ∧
      pyFloat g = some (OffenseData.Criterion ⟨mkRat 1 8, mkRat 1 2, mkRat 1 4⟩)) ∧
    (∃ g, pyGet (pySplitOn '\t' "TEZI:\t3\t0\t7\t0.25\t0.5\t0.125".data) (-1) = some g ∧
      pyFloat g = some (OffenseData.Change ⟨mkRat 1 8, mkRat 1 2, mkRat 1 4⟩)) ∧
    (6 < (pySplitOn '\t' "TEZI:\t3\t0\t7\t0.25\t0.5\t0.125".data).length →
      OperandData.Int3 ⟨"TEZI".data, 3, 0, 7⟩ =
        (((pySplitOn '\t' "TEZI:\t3\t0\t7\t0.25\t0.5\t0.125".data).get? 3).bind pyInt).getD 0) ∧
    (¬ 6 < (pySplitOn '\t' "TEZI:\t3\t0\t7\t0.25\t0.5\t0.125".data).length →
      OperandData.Int3 ⟨"TEZI".data, 3, 0, 7⟩ = 0) :=
  @C3_offender_field_extraction "TEZI:\t3\t0\t7\t0.25\t0.5\t0.125".data
    ⟨"TEZI".data, 3, 0, 7⟩ ⟨mkRat 1 8, mkRat 1 2, mkRat 1 4⟩ (by decide)

/-- C5: the optional integer fields are parsed best-effort: when all the
required parses of a worst-offender line succeed, the line yields a record
even if the third field (`Int2`) or — on lines with more than 6 fields — the
fourth field (`Int3`) cannot be converted to an integer; the failing field
keeps its default 0 and no exception escapes. -/
theorem C5_optional_fields_best_effort {line f1 : List Char} {n1 : ℤ}
    {g1 g2 g3 : List Char} {q1 q2 q3 : ℚ}
    (hf1 : (pySplitOn '\t' line).get? 1 = some f1) (hn1 : pyInt f1 = some n1)
    (hg1 : pyGet (pySplitOn '\t' line) (-1) = some g1) (hq1 : pyFloat g1 = some q1)
    (hg2 : pyGet (pySplitOn '\t' line) (-2) = some g2) (hq2 : pyFloat g2 = some q2)
    (hg3 : pyGet (pySplitOn '\t' line) (-3) = some g3) (hq3 : pyFloat g3 = some q3) :
    ∃ o off, parseOffenderLine line = some (o, off) ∧
      (((pySplitOn '\t' line).get? 2).bind pyInt = none → o.Int2 = 0) ∧
      (6 < (pySplitOn '\t' line).length →
        ((pySplitOn '\t' line).get? 3).bind pyInt = none → o.Int3 = 0) := by
  refine ⟨⟨((pySplitOn '\t' line).headD []).dropLast, n1,
            (((pySplitOn '\t' line).get? 2).bind pyInt).getD 0,
            if 6 < (pySplitOn '\t' line).length then
              (((pySplitOn '\t' line).get? 3).bind pyInt).getD 0
            else 0⟩,
          ⟨q1, q2, q3⟩, ?_, fun hnone => ?_, fun hlen hnone => ?_⟩
  · rw [parseOffenderLine_eq, hf1]
    simp [hn1, hg1, hq1, hg2, hq2, hg3, hq3]
  · simp only [List.get?_eq_getElem?] at hnone
    simp [hnone]
  · simp only [List.get?_eq_getElem?] at hnone
    simp [hlen, hnone]

/-- C5 witness. -/
theorem C5_optional_fields_best_effort_witness :
    ∃ o off, parseOffenderLine "TWAV:\t1\t\t0.25\t0.5\t0.25".data = some (o, off) ∧
      (((pySplitOn '\t' "TWAV:\t1\t\t0.25\t0.5\t0.25".data).get? 2).bind pyInt = none →
        o.Int2 = 0) ∧
      (6 < (pySplitOn '\t' "TWAV:\t1\t\t0.25\t0.5\t0.25".data).length →
        ((pySplitOn '\t' "TWAV:\t1\t\t0.25\t0.5\t0.25".data).get? 3).bind pyInt = none →
          o.Int3 = 0) :=
  @C5_optional_fields_best_effort "TWAV:\t1\t\t0.25\t0.5\t0.25".data "1".data 1
    "0.25".data "0.5".data "0.25".data (mkRat 1 4) (mkRat 1 2) (mkRat 1 4)
    (by decide) (by decide) (by decide) (by decide) (by decide) (by decide)
    (by decide) (by decide)

/-- C1: when the report succeeds, each offender whose record equals some
record of the TDE listing is resolved to its originating row: its report row
carries `TdeLine = i + 1` where `i` is the 0-based position of the first TDE
record equal to the offender (record equality is equality of the four fields
`Type`, `Int1`, `Int2`, `Int3`). -/
theorem C1_tdeline_first_match {s : List Char} {tde ofs : List OperandData}
    {offs : List OffenseData} {nc : ℚ} {rows : List ReportRow} {k : Nat}
    {o : OperandData}
    (hget : get_offenders s = some (ofs, offs, nc))
    (hrep : tde_operands_by_offense tde ofs offs = some rows)
    (hmem : o ∈ tde) (hk : ofs.get? k = some o) :
    ∃ i row, rows.get? k = some row ∧ row.offender = o ∧ row.TdeLine = i + 1 ∧
      tde.get? i = some o ∧ ∀ j, j < i → tde.get? j ≠ some o := by
  rw [tde_operands_by_offense_eq] at hrep
  simp only [Option.bind_eq_some] at hrep
  obtain ⟨ws, hws, hbr⟩ := hrep
  obtain ⟨-, hwpt⟩ := offendersWithTdeLine_spec hws
  obtain ⟨i, hidx, hwk⟩ := hwpt k o hk
  obtain ⟨-, hbpt⟩ := buildRows_spec hbr
  obtain ⟨off, hoff, hrow⟩ := hbpt k (o, i + 1) hwk
  obtain ⟨hget1, hmin⟩ := listIndex_spec hidx
  exact ⟨i, ⟨i + 1, o, off⟩, hrow, rfl, rfl, hget1, hmin⟩

/-- C1 witness. -/
theorem C1_tdeline_first_match_witness :
    ∃ i row,
      ([⟨2, ⟨"TWAV".data, 1, 0, 0⟩, ⟨mkRat 1 4, mkRat 1 2, mkRat 1 4⟩⟩] :
          List ReportRow).get? 0 = some row ∧
      row.offender = ⟨"TWAV".data, 1, 0, 0⟩ ∧ row.TdeLine = i + 1 ∧
      sampleTde.get? i = some ⟨"TWAV".data, 1, 0, 0⟩ ∧
      ∀ j, j < i → sampleTde.get? j ≠ some ⟨"TWAV".data, 1, 0, 0⟩ :=
  @C1_tdeline_first_match sampleSummary.data sampleTde
    [⟨"TWAV".data, 1, 0, 0⟩] [⟨mkRat 1 4, mkRat 1 2, mkRat 1 4⟩] (mkRat 1 2)
    [⟨2, ⟨"TWAV".data, 1, 0, 0⟩, ⟨mkRat 1 4, mkRat 1 2, mkRat 1 4⟩⟩] 0
    ⟨"TWAV".data, 1, 0, 0⟩
    (by decide) (by decide) (by decide) (by decide)

/-- C6: the report keeps the vendor's ranking: the `k`-th report row (printed
and plotted) pairs `offenders_listing[k]` with `offenses_listing[k]`, which
are the records parsed from the `k`-th worst-offender line of the summary;
no re-sorting happens. -/
theorem C6_report_order {s : List Char} {tde ofs : List OperandData}
    {offs : List OffenseData} {nc : ℚ} {rows : List ReportRow}
    (hget : get_offenders s = some (ofs, offs, nc))
    (hrep : tde_operands_by_offense tde ofs offs = some rows) :
    rows.length = ofs.length ∧
      ∀ k row, rows.get? k = some row →
        ofs.get? k = some row.offender ∧ offs.get? k = some row.offense ∧
        ∃ line, (worstOffenderLines s).get? k = some line ∧
          parseOffenderLine line = some (row.offender, row.offense) := by
  rw [get_offenders_eq] at hget
  simp only [Option.bind_eq_some, Option.some.injEq, Prod.mk.injEq] at hget
  obtain ⟨nc', hnc, ps, hps, hofs, hoffs, hnceq⟩ := hget
  subst hofs
  subst hoffs
  rw [tde_operands_by_offense_eq] at hrep
  simp only [Option.bind_eq_some] at hrep
  obtain ⟨ws, hws, hbr⟩ := hrep
  obtain ⟨hwlen, hwpt⟩ := offendersWithTdeLine_spec hws
  obtain ⟨hblen, hbpt⟩ := buildRows_spec hbr
  obtain ⟨hplen, hppt⟩ := parseOffenders_spec hps
  refine ⟨by rw [hblen, hwlen], fun k row hrow => ?_⟩
  have hklt : k < rows.length := by
    rcases Nat.lt_or_ge k rows.length with h | h
    · exact h
    · rw [List.get?_eq_none.2 h] at hrow
      exact absurd hrow (by simp)
  have hkofs : k < (ps.map Prod.fst).length := by
    rw [← hwlen, ← hblen]
    exact hklt
  obtain ⟨o, hok⟩ : ∃ o, (ps.map Prod.fst).get? k = some o := by
    cases hek : (ps.map Prod.fst).get? k with
    | none =>
      have := List.get?_eq_none.1 hek
      omega
    | some o => exact ⟨o, rfl⟩
  obtain ⟨i, hidx, hwk⟩ := hwpt k o hok
  obtain ⟨off, hoffk, hrowk⟩ := hbpt k (o, i + 1) hwk
  rw [hrow] at hrowk
  have hroweq : row = ⟨i + 1, o, off⟩ := by
    simpa using hrowk
  subst hroweq
  obtain ⟨p, hpk, hp1⟩ : ∃ p, ps.get? k = some p ∧ p.1 = o := by
    rw [List.get?_map] at hok
    exact Option.map_eq_some'.1 hok
  have hp2 : p.2 = off := by
    rw [List.get?_map, hpk] at hoffk
    exact Option.some.inj hoffk
  have hkps : k < ps.length := by
    rw [List.length_map] at hkofs
    exact hkofs
  obtain ⟨line, hline⟩ : ∃ line, (worstOffenderLines s).get? k = some line := by
    cases hel : (worstOffenderLines s).get? k with
    | none =>
      have := List.get?_eq_none.1 hel
      omega
    | some line => exact ⟨line, rfl⟩
  have hparse : parseOffenderLine line = some p := by
    rw [← hppt k line hline]
    exact hpk
  refine ⟨by simpa using hok, by simpa using hoffk, line, hline, ?_⟩
  rw [hparse]
  simp only [Option.some.injEq]
  rw [← hp1, ← hp2]

/-- C6 witness. -/
theorem C6_report_order_witness :
    ([⟨2, ⟨"TWAV".data, 1, 0, 0⟩, ⟨mkRat 1 4, mkRat 1 2, mkRat 1 4⟩⟩] :
        List ReportRow).length = ([⟨"TWAV".data, 1, 0, 0⟩] : List OperandData).length ∧
      ∀ k row,
        ([⟨2, ⟨"TWAV".data, 1, 0, 0⟩, ⟨mkRat 1 4, mkRat 1 2, mkRat 1 4⟩⟩] :
            List ReportRow).get? k = some row →
          ([⟨"TWAV".data, 1, 0, 0⟩] : List OperandData).get? k = some row.offender ∧
          ([⟨mkRat 1 4, mkRat 1 2, mkRat 1 4⟩] : List OffenseData).get? k =
            some row.offense ∧
          ∃ line, (worstOffenderLines sampleSummary.data).get? k = some line ∧
            parseOffenderLine line = some (row.offender, row.offense) :=
  @C6_report_order sampleSummary.data sampleTde
    [⟨"TWAV".data, 1, 0, 0⟩] [⟨mkRat 1 4, mkRat 1 2, mkRat 1 4⟩] (mkRat 1 2)
    [⟨2, ⟨"TWAV".data, 1, 0, 0⟩, ⟨mkRat 1 4, mkRat 1 2, mkRat 1 4⟩⟩]
    (by decide) (by decide)

/-- The worst-offender line selection in the spec's words: the substring of
the summary starting at the first occurrence of the opening tag (position
`i`) and ending just before the first occurrence of the closing tag
(position `j`), split on newline, with the first 2 and the last 3 elements
of the split dropped. -/
def specWorstLines (s : List Char) (i j : Nat) : List (List Char) :=
  dropLastN 3 ((pySplitOn '\n' ((s.take j).drop i)).drop 2)

/-- C2: with `i` the position of the first occurrence of
`"Worst offenders:"` and `j` the position of the first occurrence of the
Root-Sum-Square heading, `get_offenders` selects exactly the worst-offender
lines described by `specWorstLines`, and appends one offender record and one
offense record per selected line, in line order. -/
theorem C2_worst_offender_selection {s : List Char} {i j : Nat}
    {ofs : List OperandData} {offs : List OffenseData} {nc : ℚ}
    (hi : firstOccurAt s WORST_TAG i) (hj : firstOccurAt s RSS_TAG j)
    (hget : get_offenders s = some (ofs, offs, nc)) :
    worstOffenderLines s = specWorstLines s i j ∧
    ofs.length = (specWorstLines s i j).length ∧
    offs.length = (specWorstLines s i j).length ∧
    ∀ k line, (specWorstLines s i j).get? k = some line →
      ∃ p, parseOffenderLine line = some p ∧
        ofs.get? k = some p.1 ∧ offs.get? k = some p.2 := by
  have hsel : worstOffenderLines s = specWorstLines s i j := by
    unfold worstOffenderLines specWorstLines
    rw [pyFind_of_firstOccur hi, pyFind_of_firstOccur hj, pySlice_natCast,
      pySlice_two_negThree]
  rw [get_offenders_eq] at hget
  simp only [Option.bind_eq_some, Option.some.injEq, Prod.mk.injEq] at hget
  obtain ⟨nc', hnc, ps, hps, hofs, hoffs, hnceq⟩ := hget
  subst hofs
  subst hoffs
  rw [hsel] at hps
  obtain ⟨hplen, hppt⟩ := parseOffenders_spec hps
  refine ⟨hsel, by simp [hplen], by simp [hplen], fun k line hline => ?_⟩
  have hk : k < ps.length := by
    rw [hplen]
    rcases Nat.lt_or_ge k (specWorstLines s i j).length with h | h
    · exact h
    · rw [List.get?_eq_none.2 h] at hline
      exact absurd hline (by simp)
  obtain ⟨p, hpk⟩ : ∃ p, ps.get? k = some p := by
    cases hek : ps.get? k with
    | none =>
      have := List.get?_eq_none.1 hek
      omega
    | some p => exact ⟨p, rfl⟩
  have hparse : parseOffenderLine line = some p := by
    rw [← hppt k line hline]
    exact hpk
  refine ⟨p, hparse, ?_, ?_⟩
  · rw [List.get?_map, hpk]
    rfl
  · rw [List.get?_map, hpk]
    rfl

/-- C2 witness. -/
theorem C2_worst_offender_selection_witness :
    worstOffenderLines sampleSummary.data = specWorstLines sampleSummary.data 26 72 ∧
    ([⟨"TWAV".data, 1, 0, 0⟩] : List OperandData).length =
      (specWorstLines sampleSummary.data 26 72).length ∧
    ([⟨mkRat 1 4, mkRat 1 2, mkRat 1 4⟩] : List OffenseData).length =
      (specWorstLines sampleSummary.data 26 72).length ∧
    ∀ k line, (specWorstLines sampleSummary.data 26 72).get? k = some line →
      ∃ p, parseOffenderLine line = some p ∧
        ([⟨"TWAV".data, 1, 0, 0⟩] : List OperandData).get? k = some p.1 ∧
        ([⟨mkRat 1 4, mkRat 1 2, mkRat 1 4⟩] : List OffenseData).get? k = some p.2 :=
  @C2_worst_offender_selection sampleSummary.data 26 72
    [⟨"TWAV".data, 1, 0, 0⟩] [⟨mkRat 1 4, mkRat 1 2, mkRat 1 4⟩] (mkRat 1 2)
    (by decide) (by decide) (by decide)

/-- C4: with `i` the position of the first occurrence of the 22-character tag
`"Nominal Criterion   : "`, the nominal criterion returned by
`get_offenders` is the float parse of the text starting immediately after
the tag (22 characters after its first occurrence) and ending at the next
newline. -/
theorem C4_nominal_criterion {s : List Char} {i : Nat}
    {ofs : List OperandData} {offs : List OffenseData} {nc : ℚ}
    (hi : firstOccurAt s NOMINAL_TAG i)
    (hget : get_offenders s = some (ofs, offs, nc)) :
    pyFloat ((s.drop (i + 22)).takeWhile (fun c => !(c == '\n'))) = some nc := by
  rw [get_offenders_eq] at hget
  simp only [Option.bind_eq_some, Option.some.injEq, Prod.mk.injEq] at hget
  obtain ⟨nc', hnc, ps, hps, hofs, hoffs, hnceq⟩ := hget
  subst hnceq
  rw [pyFind_of_firstOccur hi] at hnc
  have h22 : i + NOMINAL_TAG.length ≤ s.length :=
    occursAt_add_length_le (by decide) hi.1
  have hlen22 : NOMINAL_TAG.length = 22 := by decide
  rw [hlen22] at h22
  have hfrom : pySliceFrom s ((i : ℤ) + 22) = s.drop (i + 22) := by
    unfold pySliceFrom pyIdx
    rw [if_neg (by omega)]
    have ht : ((i : ℤ) + 22).toNat = i + 22 := by omega
    rw [ht, Nat.min_eq_left (by omega)]
  rw [hfrom, headD_pySplitOn] at hnc
  exact hnc

/-- C4 witness. -/
theorem C4_nominal_criterion_witness :
    pyFloat ((sampleSummary.data.drop (0 + 22)).takeWhile (fun c => !(c == '\n'))) =
      some (mkRat 1 2) :=
  @C4_nominal_criterion sampleSummary.data 0
    [⟨"TWAV".data, 1, 0, 0⟩] [⟨mkRat 1 4, mkRat 1 2, mkRat 1 4⟩] (mkRat 1 2)
    (by decide) (by decide)
